import Mathlib

/-!
Verification development for the live voice-room engine of the Heartly
repository.  The definitions below are a shallow embedding of the room
document data model and of the room operations found in the source
(components/Room.tsx, the ActiveRoom component): each definition mirrors
one source function or inline handler, translated to a pure function on
an explicit state.  Timestamps are modelled as integers (JavaScript
epoch milliseconds), identities as strings, and the Firestore room
document as a record.  Theorems about these definitions settle the
frozen claims about the specification.
-/

/-- Model of the optional reaction field of a participant. -/
structure Reaction where
  url : String
  expiresAt : Int
deriving Repr, DecidableEq

/-- Model of the Participant record embedded in Room.participants. -/
structure Participant where
  uid : String
  displayName : String
  photoURL : Option String
  isMuted : Bool
  isHostMuted : Bool
  seatIndex : Int
  joinedAt : Int
  lastSeen : Int
  frameUrl : Option String
  reaction : Option Reaction
deriving Repr, DecidableEq

/-- Model of the room document fields the claims touch: createdBy, active,
participants, admins, lockedSeats and the kickedUsers ban map. -/
structure RoomDoc where
  id : String
  name : String
  createdBy : String
  active : Bool
  participants : List Participant
  admins : List String
  lockedSeats : List Int
  kickedUsers : List (String × Int)
deriving Repr, DecidableEq

/-- Model of the user profile fields read by the join logic. -/
structure UserProfile where
  uid : String
  displayName : Option String
  photoURL : Option String
  frameUrl : Option String
deriving Repr, DecidableEq

/-- A partial participant update, modelling the TypeScript object spread
in updateParticipantData: a field that is none is left unchanged. -/
structure ParticipantChanges where
  isMuted : Option Bool := none
  isHostMuted : Option Bool := none
  seatIndex : Option Int := none
  lastSeen : Option Int := none
  reaction : Option (Option Reaction) := none
deriving Repr, DecidableEq

/-- Merge of a change set into a participant, the spread in the source. -/
def applyChanges (p : Participant) (c : ParticipantChanges) : Participant :=
  { p with
    isMuted := c.isMuted.getD p.isMuted
    isHostMuted := c.isHostMuted.getD p.isHostMuted
    seatIndex := c.seatIndex.getD p.seatIndex
    lastSeen := c.lastSeen.getD p.lastSeen
    reaction := c.reaction.getD p.reaction }

/-- Source updateParticipantData: when no participant carries the uid the
room document is not written (result none); otherwise the participants
array is mapped, merging the changes into every entry with that uid. -/
def updateParticipantData (parts : List Participant) (uid : String)
    (changes : ParticipantChanges) : Option (List Participant) :=
  if parts.any (fun p => p.uid == uid) then
    some (parts.map (fun p => if p.uid == uid then applyChanges p changes else p))
  else none

/-- The fresh Participant built by joinRoom for an identity that is not
yet in the room: seat 999 for the creator, otherwise audience, muted. -/
def joinParticipant (room : RoomDoc) (user : UserProfile) (now : Int) : Participant :=
  { uid := user.uid
    displayName := user.displayName.getD "Guest"
    photoURL := user.photoURL
    isMuted := true
    isHostMuted := false
    seatIndex := if room.createdBy == user.uid then 999 else -1
    joinedAt := now
    lastSeen := now
    frameUrl := user.frameUrl
    reaction := none }

/-- Source joinRoom effect on an existing room document: if the identity
is already in participants nothing changes, otherwise the new
participant is appended with arrayUnion.  The source performs no
kickedUsers check in this function. -/
def joinRoom (room : RoomDoc) (user : UserProfile) (now : Int) : RoomDoc :=
  if room.participants.any (fun p => p.uid == user.uid) then room
  else { room with participants := room.participants ++ [joinParticipant room user now] }

/-- The kick ban window used by the room snapshot handler. -/
def kickBanWindowMs : Int := 10 * 60 * 1000

/-- Source check in the onSnapshot room handler: the local identity is
ejected when kickedUsers holds a truthy timestamp for it less than ten
minutes old. -/
def snapshotKickCheck (room : RoomDoc) (uid : String) (now : Int) : Bool :=
  match (room.kickedUsers.find? (fun e => e.fst == uid)).map (fun e => e.snd) with
  | some ts => !(ts == 0) && decide (now - ts < kickBanWindowMs)
  | none => false

/-- Source cleanup, the document write of the leave path in the
ActiveRoom component: the leaver is filtered out of participants and the
room is deactivated exactly when no remaining participant is the creator
or an admin. -/
def cleanup (room : RoomDoc) (uid : String) : RoomDoc :=
  let remainingParticipants := room.participants.filter (fun p => !(p.uid == uid))
  let hasAuthority := remainingParticipants.any
    (fun p => p.uid == room.createdBy || room.admins.contains p.uid)
  { room with
    participants := remainingParticipants
    active := if hasAuthority then room.active else false }

/-- Source handleLeave of the legacy components/Room.tsx ActiveRoom: a
host leave only sets active to false after a confirm, without removing
the host from participants; a non-host leave removes the identity. -/
def handleLeave (room : RoomDoc) (uid : String) (confirmEnd : Bool) : RoomDoc :=
  if room.createdBy == uid then
    if confirmEnd then { room with active := false } else room
  else { room with participants := room.participants.filter (fun p => !(p.uid == uid)) }

/-- Source handleTakeSeat: writes seatIndex and isMuted true through
updateParticipantData. -/
def handleTakeSeat (parts : List Participant) (me : String) (index : Int) :
    Option (List Participant) :=
  updateParticipantData parts me { seatIndex := some index, isMuted := some true }

/-- The take-seat action as reachable through the seat click and popup:
the popup offers Take Seat only when no participant occupies the clicked
index in the current snapshot, so the occupied case yields none. -/
def popupTakeSeat (parts : List Participant) (me : String) (index : Int) :
    Option (List Participant) :=
  if parts.any (fun p => p.seatIndex == index) then none
  else handleTakeSeat parts me index

/-- Source acceptInvite: writes the invited seatIndex and isMuted true
without re-checking occupancy of that seat. -/
def acceptInvite (parts : List Participant) (me : String) (inviteSeatIndex : Int) :
    Option (List Participant) :=
  updateParticipantData parts me { seatIndex := some inviteSeatIndex, isMuted := some true }

/-- Source popup Move to Audience handler for hosts and admins: writes
only seatIndex minus one, leaving isMuted untouched. -/
def moveToAudienceHandler (parts : List Participant) (targetUid : String) :
    Option (List Participant) :=
  updateParticipantData parts targetUid { seatIndex := some (-1) }

/-- Source handleMutePeer: when the target is host-muted the flag is
cleared, otherwise isMuted and isHostMuted are both set to true. -/
def handleMutePeer (parts : List Participant) (targetUid : String)
    (currentMuteState currentHostMuteState : Bool) : Option (List Participant) :=
  if currentHostMuteState then
    updateParticipantData parts targetUid { isHostMuted := some false }
  else
    updateParticipantData parts targetUid { isMuted := some true, isHostMuted := some true }

/-- Source toggleMute: writes the negation of the local React mute state
to the document, with no isHostMuted check. -/
def toggleMute (parts : List Participant) (me : String) (localIsMuted : Bool) :
    Option (List Participant) :=
  updateParticipantData parts me { isMuted := some (!localIsMuted) }

/-- Seat exclusivity over the eight numbered speaker seats: at most one
participant per index in the range zero to seven. -/
def seatExclusiveB (parts : List Participant) : Bool :=
  (List.range 8).all
    (fun i => decide (parts.countP (fun p => p.seatIndex == (i : Int)) ≤ 1))

/-- Mute monotonicity: every host-muted participant is also muted. -/
def muteInvariantB (parts : List Participant) : Bool :=
  parts.all (fun p => !p.isHostMuted || p.isMuted)

/-- State of the local peer connection table: the identities with an
existing RTCPeerConnection and the identities an offer was created for. -/
structure PeerState where
  pcs : List String
  offersSent : List String
deriving Repr, DecidableEq

/-- Source createPeerConnection: an existing connection is returned
untouched; a new one is registered and, when the caller is the
initiator, an offer is created and sent to the target. -/
def createPeerConnection (st : PeerState) (targetUid : String) (isInitiator : Bool) :
    PeerState :=
  if targetUid ∈ st.pcs then st
  else
    { pcs := targetUid :: st.pcs
      offersSent := if isInitiator then st.offersSent ++ [targetUid] else st.offersSent }

/-- One step of the mesh reconcile loop in the room snapshot handler:
connect as initiator exactly when the remote uid differs from the local
identity and the local identity is lexicographically smaller. -/
def meshStep (me : String) (st : PeerState) (p : Participant) : PeerState :=
  if p.uid ≠ me ∧ me < p.uid then createPeerConnection st p.uid true else st

/-- The mesh reconcile loop over a participants snapshot. -/
def meshReconcile (st : PeerState) (me : String) (parts : List Participant) : PeerState :=
  parts.foldl (meshStep me) st

/-- Model of a single remote peer connection for the signaling path:
whether a remote description has been set and the candidates already
passed to addIceCandidate, in order. -/
structure PeerConn where
  hasRemoteDescription : Bool
  applied : List String
deriving Repr, DecidableEq

/-- Per-identity signaling state: the optional peer connection and the
pending candidate queue for that identity. -/
structure SignalState where
  pc : Option PeerConn
  queue : List String
deriving Repr, DecidableEq

/-- Source handleCandidate: no connection or no remote description means
the candidate is appended to the per-identity queue, otherwise it is
applied immediately. -/
def handleCandidate (st : SignalState) (candidate : String) : SignalState :=
  match st.pc with
  | none => { st with queue := st.queue ++ [candidate] }
  | some pc =>
    if pc.hasRemoteDescription then
      { st with pc := some { pc with applied := pc.applied ++ [candidate] } }
    else { st with queue := st.queue ++ [candidate] }

/-- Source processCandidateQueue: every queued candidate is applied in
order and the queue is cleared. -/
def processCandidateQueue (st : SignalState) : SignalState :=
  match st.pc with
  | none => st
  | some pc => { pc := some { pc with applied := pc.applied ++ st.queue }, queue := [] }

/-- The remote description step of handleOffer and handleAnswer: set the
remote description on the existing connection, then flush the queue. -/
def setRemoteAndFlush (st : SignalState) : SignalState :=
  match st.pc with
  | none => st
  | some pc =>
    processCandidateQueue { st with pc := some { pc with hasRemoteDescription := true } }

/-- All candidates accounted for by a signaling state: the applied ones
followed by the queued ones. -/
def delivered (st : SignalState) : List String :=
  (match st.pc with
   | none => []
   | some pc => pc.applied) ++ st.queue

/-- State of the gift animation machinery: the playing flag, the
currently playing animation url and the FIFO side buffer. -/
structure AnimState where
  isPlayingSvga : Bool
  currentSvga : Option String
  animationQueue : List String
deriving Repr, DecidableEq

/-- Arrival of a fresh gift event with an animation url, from the
messages snapshot handler: start it when idle, otherwise append it. -/
def giftEventAnim (st : AnimState) (url : String) : AnimState :=
  if st.isPlayingSvga then { st with animationQueue := st.animationQueue ++ [url] }
  else { st with isPlayingSvga := true, currentSvga := some url }

/-- The onFinished and load-error paths of the SVGA player effect: stop,
then shift the next queued animation into play if one exists. -/
def svgaAdvance (st : AnimState) : AnimState :=
  match st.animationQueue with
  | next :: rest =>
    { isPlayingSvga := true, currentSvga := some next, animationQueue := rest }
  | [] => { st with isPlayingSvga := false, currentSvga := none }

/-- The seven second timeout handler of the SVGA player effect: force
clear the current animation; the queue is left untouched. -/
def svgaTimeout (st : AnimState) : AnimState :=
  { st with isPlayingSvga := false, currentSvga := none }

/-- Helper to build concrete participants for counterexample states. -/
def mkP (uid : String) (seat : Int) (muted hostMuted : Bool) : Participant :=
  { uid := uid
    displayName := uid
    photoURL := none
    isMuted := muted
    isHostMuted := hostMuted
    seatIndex := seat
    joinedAt := 0
    lastSeen := 0
    frameUrl := none
    reaction := none }

/-- Concrete room with a kicked identity, kicked at time 1000. -/
def roomKickEx : RoomDoc :=
  { id := "r"
    name := "r"
    createdBy := "h"
    active := true
    participants := [mkP "h" 999 true false]
    admins := []
    lockedSeats := []
    kickedUsers := [("kicked", 1000)] }

/-- Concrete profile of the kicked identity trying to rejoin. -/
def kickedUserEx : UserProfile :=
  { uid := "kicked", displayName := some "K", photoURL := none, frameUrl := none }

/-- Concrete room whose host is about to leave while an admin remains. -/
def roomLeaveEx : RoomDoc :=
  { id := "r"
    name := "r"
    createdBy := "h"
    active := true
    participants := [mkP "h" 999 true false, mkP "a" 0 true false]
    admins := ["a"]
    lockedSeats := []
    kickedUsers := [] }

/-- Claim C4: a join with the identity absent from participants appends
exactly one new participant, with seat 999 for the creator and minus one
otherwise, muted; a join with the identity present changes nothing. -/
theorem joinRoom_postcondition (room : RoomDoc) (user : UserProfile) (now : Int) :
    (joinRoom room user now).participants =
      (if room.participants.any (fun p => p.uid == user.uid) then room.participants
       else room.participants ++ [joinParticipant room user now]) ∧
    (joinParticipant room user now).isMuted = true ∧
    (joinParticipant room user now).seatIndex =
      (if room.createdBy == user.uid then 999 else -1) := by
  refine ⟨?_, rfl, rfl⟩
  unfold joinRoom
  split <;> rfl

/-- Claim C10: updateParticipantData is a frame-preserving update: with
the uid absent nothing is written; otherwise the length and order are
kept, entries with other uids are returned unchanged, and entries with
the given uid are exactly the old entry merged with the changes. -/
theorem updateParticipantData_frame (parts : List Participant) (uid : String)
    (changes : ParticipantChanges) :
    (parts.any (fun p => p.uid == uid) = false →
      updateParticipantData parts uid changes = none) ∧
    (∀ l, updateParticipantData parts uid changes = some l →
      l.length = parts.length ∧
      ∀ i (h1 : i < parts.length) (h2 : i < l.length),
        (¬ (parts.get ⟨i, h1⟩).uid = uid → l.get ⟨i, h2⟩ = parts.get ⟨i, h1⟩) ∧
        ((parts.get ⟨i, h1⟩).uid = uid →
          l.get ⟨i, h2⟩ = applyChanges (parts.get ⟨i, h1⟩) changes)) := by
  constructor
  · intro h
    unfold updateParticipantData
    simp [h]
  · intro l hl
    unfold updateParticipantData at hl
    by_cases h : parts.any (fun p => p.uid == uid) = true
    · rw [if_pos h] at hl
      have hlm : l = parts.map
          (fun p => if p.uid == uid then applyChanges p changes else p) :=
        (Option.some_injective _ hl).symm
      subst hlm
      refine ⟨List.length_map _ _, ?_⟩
      intro i h1 h2
      constructor
      · intro hne
        simp only [List.get_eq_getElem] at hne ⊢
        simp only [List.getElem_map, beq_iff_eq]
        rw [if_neg hne]
      · intro heq
        simp only [List.get_eq_getElem] at heq ⊢
        simp only [List.getElem_map, beq_iff_eq]
        rw [if_pos heq]
    · rw [if_neg h] at hl
      exact absurd hl (by simp)

/-- Witness for claim C10 at a concrete list. -/
theorem updateParticipantData_frame_witness :
    updateParticipantData [mkP "x" 3 true false] "z" { isMuted := some false } = none ∧
    ([mkP "x" 3 true false, mkP "y" 0 true false].map
      (fun p => if p.uid == "y" then applyChanges p { isMuted := some false } else p)).length
      = 2 := by
  constructor
  · exact (updateParticipantData_frame [mkP "x" 3 true false] "z"
      { isMuted := some false }).1 (by decide)
  · have h := ((updateParticipantData_frame [mkP "x" 3 true false, mkP "y" 0 true false]
      "y" { isMuted := some false }).2 _ rfl).1
    simpa using h

/-- Claim C7: an incoming candidate is never dropped: it is either
applied at once or appended to the FIFO queue, and setting the remote
description flushes the whole queue, in order, and clears it. -/
theorem candidate_buffering (st : SignalState) (candidate : String) :
    (delivered (handleCandidate st candidate)).Perm (delivered st ++ [candidate]) ∧
    ((st.pc = none ∨ ∃ pc, st.pc = some pc ∧ pc.hasRemoteDescription = false) →
      (handleCandidate st candidate).queue = st.queue ++ [candidate]) ∧
    (∀ pc, st.pc = some pc → pc.hasRemoteDescription = true →
      (handleCandidate st candidate).pc =
        some { pc with applied := pc.applied ++ [candidate] }) ∧
    (∀ pc, st.pc = some pc →
      (setRemoteAndFlush st).pc =
        some { hasRemoteDescription := true, applied := pc.applied ++ st.queue } ∧
      (setRemoteAndFlush st).queue = []) := by
  refine ⟨?_, ?_, ?_, ?_⟩
  · cases hpc : st.pc with
    | none => simp [handleCandidate, delivered, hpc]
    | some pc =>
      cases hrd : pc.hasRemoteDescription
      · simp [handleCandidate, delivered, hpc, hrd, List.append_assoc]
      · simp only [handleCandidate, delivered, hpc, hrd, if_pos]
        rw [List.append_assoc, List.append_assoc]
        exact List.Perm.append_left _ List.perm_append_comm
  · intro h
    cases hpc : st.pc with
    | none => simp [handleCandidate, hpc]
    | some pc =>
      rcases h with h | ⟨pc2, hpc2, hrd⟩
      · rw [hpc] at h; exact absurd h (by simp)
      · rw [hpc] at hpc2
        have : pc = pc2 := by injection hpc2
        subst this
        simp [handleCandidate, hpc, hrd]
  · intro pc hpc hrd
    simp [handleCandidate, hpc, hrd]
  · intro pc hpc
    simp [setRemoteAndFlush, processCandidateQueue, hpc]

/-- Witness for claim C7: a candidate arriving before the remote
description is queued, and the flush applies it and clears the queue. -/
theorem candidate_buffering_witness :
    (handleCandidate ⟨some ⟨false, []⟩, ["c1"]⟩ "c2").queue = ["c1"] ++ ["c2"] ∧
    (setRemoteAndFlush ⟨some ⟨false, []⟩, ["c1", "c2"]⟩).pc =
      some { hasRemoteDescription := true, applied := [] ++ ["c1", "c2"] } ∧
    (setRemoteAndFlush ⟨some ⟨false, []⟩, ["c1", "c2"]⟩).queue = [] := by
  refine ⟨?_, ?_, ?_⟩
  · exact (candidate_buffering ⟨some ⟨false, []⟩, ["c1"]⟩ "c2").2.1
      (Or.inr ⟨⟨false, []⟩, rfl, rfl⟩)
  · exact ((candidate_buffering ⟨some ⟨false, []⟩, ["c1", "c2"]⟩ "x").2.2.2 ⟨false, []⟩ rfl).1
  · exact ((candidate_buffering ⟨some ⟨false, []⟩, ["c1", "c2"]⟩ "x").2.2.2 ⟨false, []⟩ rfl).2

/-- Counterexample for claim C1: the room state with alice on seat 3 and
bob in the audience is seat-exclusive, yet bob accepting an invite for
seat 3 produces two participants with seatIndex 3, because acceptInvite
performs no occupancy re-check. -/
theorem acceptInvite_double_occupancy :
    seatExclusiveB [mkP "alice" 3 true false, mkP "bob" (-1) true false] = true ∧
    acceptInvite [mkP "alice" 3 true false, mkP "bob" (-1) true false] "bob" 3 =
      some [mkP "alice" 3 true false, mkP "bob" 3 true false] ∧
    seatExclusiveB [mkP "alice" 3 true false, mkP "bob" 3 true false] = false := by
  exact ⟨by decide, by decide, by decide⟩

/-- Counterexample for claim C2: a participant who is muted and
host-muted presses the mute toggle; toggleMute writes the negated local
mute state without consulting isHostMuted, producing a document state
with isHostMuted true and isMuted false. -/
theorem toggleMute_breaks_hostmute :
    muteInvariantB [mkP "m" 0 true true] = true ∧
    toggleMute [mkP "m" 0 true true] "m" true = some [mkP "m" 0 false true] ∧
    muteInvariantB [mkP "m" 0 false true] = false := by
  exact ⟨by decide, by decide, by decide⟩

/-- Claim C2 amended: the host or admin mute write preserves the
implication from isHostMuted to isMuted, and its muting branch sets both
flags together on the target. -/
theorem handleMutePeer_invariant (parts : List Participant) (targetUid : String)
    (cm chm : Bool) (hinv : muteInvariantB parts = true) (l : List Participant)
    (h : handleMutePeer parts targetUid cm chm = some l) :
    muteInvariantB l = true ∧
    (chm = false → ∀ p ∈ l, p.uid = targetUid → p.isMuted = true ∧ p.isHostMuted = true) := by
  simp only [muteInvariantB, List.all_eq_true] at hinv
  unfold handleMutePeer updateParticipantData at h
  constructor
  · simp only [muteInvariantB, List.all_eq_true]
    intro p hp
    cases chm with
    | false =>
      rw [if_neg (by simp)] at h
      by_cases hmem : (parts.any fun p => p.uid == targetUid) = true
      · rw [if_pos hmem] at h
        have hlm := (Option.some_injective _ h).symm
        subst hlm
        rcases List.mem_map.mp hp with ⟨q, hq, hfq⟩
        by_cases hquid : (q.uid == targetUid) = true
        · rw [if_pos hquid] at hfq
          subst hfq
          simp [applyChanges]
        · rw [if_neg hquid] at hfq
          subst hfq
          exact hinv q hq
      · rw [if_neg hmem] at h
        exact absurd h (by simp)
    | true =>
      rw [if_pos rfl] at h
      by_cases hmem : (parts.any fun p => p.uid == targetUid) = true
      · rw [if_pos hmem] at h
        have hlm := (Option.some_injective _ h).symm
        subst hlm
        rcases List.mem_map.mp hp with ⟨q, hq, hfq⟩
        by_cases hquid : (q.uid == targetUid) = true
        · rw [if_pos hquid] at hfq
          subst hfq
          simp [applyChanges]
        · rw [if_neg hquid] at hfq
          subst hfq
          exact hinv q hq
      · rw [if_neg hmem] at h
        exact absurd h (by simp)
  · intro hchm p hp hpuid
    subst hchm
    rw [if_neg (by simp)] at h
    by_cases hmem : (parts.any fun p => p.uid == targetUid) = true
    · rw [if_pos hmem] at h
      have hlm := (Option.some_injective _ h).symm
      subst hlm
      rcases List.mem_map.mp hp with ⟨q, hq, hfq⟩
      by_cases hquid : (q.uid == targetUid) = true
      · rw [if_pos hquid] at hfq
        subst hfq
        simp [applyChanges]
      · rw [if_neg hquid] at hfq
        subst hfq
        exact absurd (beq_iff_eq.mpr hpuid) hquid
    · rw [if_neg hmem] at h
      exact absurd h (by simp)

/-- Witness for the amended claim C2 at a concrete state: host-muting an
unmuted participant sets isMuted and isHostMuted together. -/
theorem handleMutePeer_invariant_witness :
    muteInvariantB [mkP "t" 0 true true] = true ∧
    (∀ p ∈ [mkP "t" 0 true true], p.uid = "t" → p.isMuted = true ∧ p.isHostMuted = true) := by
  have h := handleMutePeer_invariant [mkP "t" 0 false false] "t" false false
    (by decide) [mkP "t" 0 true true] (by decide)
  exact ⟨h.1, h.2 rfl⟩

/-- Counterexample for claim C3: the kicked identity is inside the ten
minute ban window at time 2000, yet joinRoom appends it to participants;
the refusal is not part of the join write. -/
theorem joinRoom_ignores_kick :
    snapshotKickCheck roomKickEx "kicked" 2000 = true ∧
    (joinRoom roomKickEx kickedUserEx 2000).participants.any
      (fun p => p.uid == "kicked") = true := by
  exact ⟨by decide, by decide⟩

/-- Claim C3 amended: the ban window is enforced by the room snapshot
handler, not by the join write: while the window is open the kick check
still fires after the join, and the cleanup it triggers removes the
identity from participants, routing the caller out. -/
theorem kick_ban_enforced_by_snapshot (room : RoomDoc) (user : UserProfile)
    (now tnow : Int) (h : snapshotKickCheck room user.uid tnow = true) :
    snapshotKickCheck (joinRoom room user now) user.uid tnow = true ∧
    (cleanup (joinRoom room user now) user.uid).participants.any
      (fun p => p.uid == user.uid) = false := by
  constructor
  · have hk : (joinRoom room user now).kickedUsers = room.kickedUsers := by
      unfold joinRoom
      split <;> rfl
    unfold snapshotKickCheck at h ⊢
    rw [hk]
    exact h
  · unfold cleanup
    rw [List.any_eq_false]
    intro p hp
    rcases List.mem_filter.mp hp with ⟨_, hpred⟩
    simpa using hpred

/-- Witness for the amended claim C3 at the concrete kicked room. -/
theorem kick_ban_enforced_by_snapshot_witness :
    snapshotKickCheck (joinRoom roomKickEx kickedUserEx 2000) "kicked" 2000 = true ∧
    (cleanup (joinRoom roomKickEx kickedUserEx 2000) "kicked").participants.any
      (fun p => p.uid == "kicked") = false :=
  kick_ban_enforced_by_snapshot roomKickEx kickedUserEx 2000 2000 (by decide)

/-- Counterexample for claim C5: in the legacy handleLeave a host leave
deactivates the room without removing the host from participants, even
though an admin with authority remains. -/
theorem handleLeave_host_not_removed :
    (handleLeave roomLeaveEx "h" true).active = false ∧
    (handleLeave roomLeaveEx "h" true).participants.any (fun p => p.uid == "h") = true ∧
    (roomLeaveEx.participants.filter (fun p => !(p.uid == "h"))).any
      (fun p => p.uid == roomLeaveEx.createdBy || roomLeaveEx.admins.contains p.uid)
      = true := by
  exact ⟨by decide, by decide, by decide⟩

/-- Claim C5 amended: the cleanup leave path of the main room engine
removes the leaver from participants and deactivates the room exactly
when no remaining participant is the creator or an admin; when authority
remains only the membership changes. -/
theorem cleanup_leave_postcondition (room : RoomDoc) (uid : String) :
    (cleanup room uid).participants = room.participants.filter (fun p => !(p.uid == uid)) ∧
    (cleanup room uid).participants.all (fun p => !(p.uid == uid)) = true ∧
    (cleanup room uid).active =
      (if (room.participants.filter (fun p => !(p.uid == uid))).any
          (fun p => p.uid == room.createdBy || room.admins.contains p.uid)
       then room.active else false) ∧
    (cleanup room uid).createdBy = room.createdBy ∧
    (cleanup room uid).admins = room.admins := by
  refine ⟨rfl, ?_, rfl, rfl, rfl⟩
  simp only [cleanup, List.all_eq_true]
  intro p hp
  rcases List.mem_filter.mp hp with ⟨_, hpred⟩
  exact hpred

/-- Counterexample for claim C8: the host or admin Move to Audience
write changes seatIndex to minus one but does not reset isMuted: an
unmuted speaker stays unmuted after being moved to the audience. -/
theorem moveToAudience_keeps_mute :
    moveToAudienceHandler [mkP "s" 3 false false] "s" =
      some [mkP "s" (-1) false false] ∧
    (mkP "s" (-1) false false).isMuted = false := by
  exact ⟨by decide, rfl⟩

/-- Claim C8 amended: takeSeat and invite acceptance write isMuted true
together with the seat change, while the host or admin Move to Audience
write changes only seatIndex and leaves isMuted as it was. -/
theorem seat_change_mute_writes (parts : List Participant) (me : String) (idx : Int)
    (h : parts.any (fun p => p.uid == me) = true) :
    handleTakeSeat parts me idx =
      some (parts.map (fun p => if p.uid == me then
        { p with seatIndex := idx, isMuted := true } else p)) ∧
    acceptInvite parts me idx =
      some (parts.map (fun p => if p.uid == me then
        { p with seatIndex := idx, isMuted := true } else p)) ∧
    moveToAudienceHandler parts me =
      some (parts.map (fun p => if p.uid == me then
        { p with seatIndex := -1 } else p)) := by
  unfold handleTakeSeat acceptInvite moveToAudienceHandler updateParticipantData
  rw [if_pos h, if_pos h]
  exact ⟨rfl, rfl, rfl⟩

/-- Witness for the amended claim C8 at a concrete participant list. -/
theorem seat_change_mute_writes_witness :
    handleTakeSeat [mkP "s" 3 false false] "s" 5 =
      some ([mkP "s" 3 false false].map (fun p => if p.uid == "s" then
        { p with seatIndex := 5, isMuted := true } else p)) ∧
    moveToAudienceHandler [mkP "s" 3 false false] "s" =
      some ([mkP "s" 3 false false].map (fun p => if p.uid == "s" then
        { p with seatIndex := -1 } else p)) := by
  have h := seat_change_mute_writes [mkP "s" 3 false false] "s" 5 (by decide)
  exact ⟨h.1, h.2.2⟩

/-- Counterexample for claim C9: the seven second timeout clears the
playing animation but does not drain the FIFO buffer: afterwards nothing
is playing although an animation is still queued. -/
theorem svgaTimeout_does_not_drain :
    svgaTimeout ⟨true, some "a", ["b"]⟩ = ⟨false, none, ["b"]⟩ ∧
    (svgaTimeout ⟨true, some "a", ["b"]⟩).currentSvga = none ∧
    (svgaTimeout ⟨true, some "a", ["b"]⟩).animationQueue ≠ [] := by
  exact ⟨rfl, rfl, by decide⟩

/-- Claim C9 amended: a gift arriving while an animation plays is
appended to the FIFO buffer without interrupting the current animation;
a gift arriving while idle plays at once; completion and load failure
drain the buffer one element at a time; the timeout only clears the
current animation and leaves the buffer untouched. -/
theorem animation_queue_behavior (st : AnimState) (url : String) :
    (st.isPlayingSvga = true →
      giftEventAnim st url = { st with animationQueue := st.animationQueue ++ [url] }) ∧
    (st.isPlayingSvga = false →
      giftEventAnim st url = { st with isPlayingSvga := true, currentSvga := some url }) ∧
    (∀ next rest, st.animationQueue = next :: rest →
      svgaAdvance st = ⟨true, some next, rest⟩) ∧
    (st.animationQueue = [] →
      svgaAdvance st = { st with isPlayingSvga := false, currentSvga := none }) ∧
    (svgaTimeout st).animationQueue = st.animationQueue := by
  refine ⟨?_, ?_, ?_, ?_, rfl⟩
  · intro h
    unfold giftEventAnim
    rw [if_pos h]
  · intro h
    unfold giftEventAnim
    rw [if_neg (by simp [h])]
  · intro next rest h
    unfold svgaAdvance
    rw [h]
  · intro h
    unfold svgaAdvance
    rw [h]

/-- Witness for the amended claim C9 at a concrete animation state. -/
theorem animation_queue_behavior_witness :
    giftEventAnim ⟨true, some "a", ["b"]⟩ "c" = ⟨true, some "a", ["b", "c"]⟩ ∧
    svgaAdvance ⟨true, some "a", ["b", "c"]⟩ = ⟨true, some "b", ["c"]⟩ := by
  constructor
  · have h := (animation_queue_behavior ⟨true, some "a", ["b"]⟩ "c").1 rfl
    simpa using h
  · exact (animation_queue_behavior ⟨true, some "a", ["b", "c"]⟩ "x").2.2.1 "b" ["c"] rfl

/-- Claim C1 amended: seat exclusivity is preserved by the take-seat
action reachable through the seat popup, which is offered only for a
seat index no participant occupies, assuming the uid occurs at most once
in the list; acceptInvite does not enjoy this property. -/
theorem popupTakeSeat_preserves_exclusivity (parts : List Participant) (me : String)
    (index : Int) (huid : parts.countP (fun p => p.uid == me) ≤ 1)
    (hexcl : seatExclusiveB parts = true) (l : List Participant)
    (h : popupTakeSeat parts me index = some l) :
    seatExclusiveB l = true := by
  unfold popupTakeSeat at h
  by_cases hocc : (parts.any fun p => p.seatIndex == index) = true
  · rw [if_pos hocc] at h
    exact absurd h (by simp)
  · rw [if_neg hocc] at h
    have hoccP : ∀ p ∈ parts, ¬ p.seatIndex = index := by
      intro p hp hpe
      exact hocc (List.any_eq_true.mpr ⟨p, hp, by simp [hpe]⟩)
    unfold handleTakeSeat updateParticipantData at h
    by_cases hmem : (parts.any fun p => p.uid == me) = true
    · rw [if_pos hmem] at h
      have hl := (Option.some_injective _ h).symm
      subst hl
      simp only [seatExclusiveB, List.all_eq_true, decide_eq_true_eq] at hexcl ⊢
      intro i hi
      rw [List.countP_map]
      by_cases hji : index = (i : Int)
      · refine le_trans (List.countP_mono_left ?_) huid
        intro p hp hfp
        by_cases hc : (p.uid == me) = true
        · exact hc
        · exfalso
          rw [Function.comp_apply, if_neg hc] at hfp
          exact hoccP p hp ((beq_iff_eq.mp hfp).trans hji.symm)
      · refine le_trans (List.countP_mono_left ?_) (hexcl i hi)
        intro p hp hfp
        by_cases hc : (p.uid == me) = true
        · exfalso
          rw [Function.comp_apply, if_pos hc] at hfp
          have hsi : ((applyChanges p
              { seatIndex := some index, isMuted := some true }).seatIndex
                == (i : Int)) = true := hfp
          have : index = (i : Int) := by
            simpa [applyChanges] using hsi
          exact hji this
        · rw [Function.comp_apply, if_neg hc] at hfp
          exact hfp
    · rw [if_neg hmem] at h
      exact absurd h (by simp)

/-- Witness for the amended claim C1: a participant in the audience
takes the empty seat 2 and the state stays seat-exclusive. -/
theorem popupTakeSeat_preserves_exclusivity_witness :
    seatExclusiveB [mkP "x" (-1) true false] = true ∧
    seatExclusiveB [mkP "x" 2 true false] = true := by
  have h := popupTakeSeat_preserves_exclusivity [mkP "x" (-1) true false] "x" 2
    (by decide) (by decide) [mkP "x" 2 true false] (by decide)
  exact ⟨by decide, h⟩

/-- Unfolding of the mesh reconcile loop on a cons cell. -/
theorem meshReconcile_cons (me : String) (s : PeerState) (p : Participant)
    (rest : List Participant) :
    meshReconcile s me (p :: rest) = meshReconcile (meshStep me s p) me rest := rfl

/-- One reconcile step never removes an already-sent offer. -/
theorem offersSent_step_mono (me : String) (s : PeerState) (p : Participant) (x : String)
    (h : x ∈ s.offersSent) : x ∈ (meshStep me s p).offersSent := by
  unfold meshStep createPeerConnection
  split
  · split
    · exact h
    · exact List.mem_append.mpr (Or.inl h)
  · exact h

/-- The reconcile loop never removes an already-sent offer. -/
theorem offersSent_mono (me : String) :
    ∀ (parts : List Participant) (s : PeerState) (x : String),
      x ∈ s.offersSent → x ∈ (meshReconcile s me parts).offersSent := by
  intro parts
  induction parts with
  | nil => intro s x h; exact h
  | cons p rest ih =>
    intro s x h
    rw [meshReconcile_cons]
    exact ih _ x (offersSent_step_mono me s p x h)

/-- On the smaller identity, the reconcile loop creates an offer for
every larger participant present that has no connection yet. -/
theorem mesh_initiates_offer (A B : String) (hAB : A < B) :
    ∀ (parts : List Participant) (s : PeerState),
      B ∈ parts.map (fun p => p.uid) →
      (B ∉ s.pcs ∨ B ∈ s.offersSent) →
      B ∈ (meshReconcile s A parts).offersSent := by
  intro parts
  induction parts with
  | nil =>
    intro s hB _
    simp at hB
  | cons p rest ih =>
    intro s hB hinv
    rw [meshReconcile_cons]
    by_cases hpB : p.uid = B
    · have hcond : p.uid ≠ A ∧ A < p.uid :=
        ⟨hpB ▸ (ne_of_lt hAB).symm, hpB ▸ hAB⟩
      have hstep : meshStep A s p = createPeerConnection s p.uid true := by
        unfold meshStep
        rw [if_pos hcond]
      rw [hstep]
      unfold createPeerConnection
      by_cases hmem : p.uid ∈ s.pcs
      · rw [if_pos hmem]
        rcases hinv with hnp | hoff
        · exact absurd (hpB ▸ hmem) hnp
        · exact offersSent_mono A rest s B hoff
      · rw [if_neg hmem]
        refine offersSent_mono A rest _ B ?_
        exact List.mem_append.mpr (Or.inr (by simp [hpB]))
    · have hBrest : B ∈ rest.map (fun p => p.uid) := by
        rcases List.mem_map.mp hB with ⟨q, hq, hquid⟩
        rcases List.mem_cons.mp hq with hq1 | hq2
        · exact absurd (hq1 ▸ hquid) hpB
        · exact List.mem_map.mpr ⟨q, hq2, hquid⟩
      refine ih _ hBrest ?_
      rcases hinv with hnp | hoff
      · unfold meshStep createPeerConnection
        split
        · split
          · exact Or.inl hnp
          · left
            intro hmem
            rcases List.mem_cons.mp hmem with h1 | h2
            · exact hpB h1.symm
            · exact hnp h2
        · exact Or.inl hnp
      · exact Or.inr (offersSent_step_mono A s p B hoff)

/-- On the larger identity, the reconcile loop never creates an offer
toward a smaller identity. -/
theorem mesh_larger_never_offers (A B : String) (hAB : A < B) :
    ∀ (parts : List Participant) (s : PeerState),
      (A ∈ (meshReconcile s B parts).offersSent ↔ A ∈ s.offersSent) := by
  intro parts
  induction parts with
  | nil => intro s; exact Iff.rfl
  | cons p rest ih =>
    intro s
    rw [meshReconcile_cons, ih (meshStep B s p)]
    unfold meshStep createPeerConnection
    by_cases hcond : p.uid ≠ B ∧ B < p.uid
    · rw [if_pos hcond]
      by_cases hmem : p.uid ∈ s.pcs
      · rw [if_pos hmem]
      · rw [if_neg hmem]
        have hne : A ≠ p.uid := ne_of_lt (lt_trans hAB hcond.2)
        show A ∈ s.offersSent ++ [p.uid] ↔ A ∈ s.offersSent
        simp [List.mem_append, hne]
    · rw [if_neg hcond]

/-- Claim C6: for identities A smaller than B both present, the client
with local identity A creates the offer for the pair during its mesh
reconcile, while the client with local identity B never adds an offer
toward A, so exactly one side initiates. -/
theorem offer_tiebreak (A B : String) (parts : List Participant) (stA stB : PeerState)
    (hAB : A < B) (hBin : B ∈ parts.map (fun p => p.uid)) (hpc : B ∉ stA.pcs) :
    B ∈ (meshReconcile stA A parts).offersSent ∧
    (A ∈ (meshReconcile stB B parts).offersSent ↔ A ∈ stB.offersSent) :=
  ⟨mesh_initiates_offer A B hAB parts stA hBin (Or.inl hpc),
   mesh_larger_never_offers A B hAB parts stB⟩

/-- Witness for claim C6 with identities a and b and fresh peer tables:
client a sends the offer to b, client b sends none to a. -/
theorem offer_tiebreak_witness :
    "b" ∈ (meshReconcile ⟨[], []⟩ "a" [mkP "b" (-1) true false]).offersSent ∧
    ("a" ∈ (meshReconcile ⟨[], []⟩ "b" [mkP "b" (-1) true false]).offersSent ↔
      "a" ∈ (⟨[], []⟩ : PeerState).offersSent) :=
  offer_tiebreak "a" "b" [mkP "b" (-1) true false] ⟨[], []⟩ ⟨[], []⟩
    (String.lt_iff_toList_lt.mpr (by decide)) (by decide) (by decide)
